import Mathlib

/-!
Verification of the LifeSynced calendar sync and conflict-analysis core.

The definitions below are a shallow embedding of the TypeScript source:
  - `calendar-ui/app/api/events/route.ts` (GET read path, `getBaseIdFromEventId`,
    POST sync orchestrator, `syncIcsCalendar`, `expandEvent`, `createEventRecord`),
  - `calendar-ui/lib/supabase.ts` (`toCalendarEvent`),
  - `calendar-ui/app/page.tsx` (`getBaseIdFromEventId` page copy,
    `getOverlappingEventIds`, `calculateEventLayout`).
JavaScript strings are modelled as `String` or `List Char` (`List Char` where the
code splits and joins on characters), instants (`Date` values) as `Int`
milliseconds since the Unix epoch, and the `ical.js` recurrence iterator as a
stream `Nat → Except Unit (Option Int)` (`.error` models a thrown exception,
`.ok none` models exhaustion of the rule).
-/

namespace LifeSynced

/-- Decimal digit character of `n % 10`; models one digit of JavaScript number
formatting inside `Date.prototype.toISOString`. -/
def digitChar (n : Nat) : Char :=
  match n % 10 with
  | 0 => '0' | 1 => '1' | 2 => '2' | 3 => '3' | 4 => '4'
  | 5 => '5' | 6 => '6' | 7 => '7' | 8 => '8' | _ => '9'

/-- Two-digit zero-padded rendering of `n` (for `n < 100`). -/
def pad2 (n : Nat) : List Char := [digitChar (n / 10), digitChar n]

/-- Four-digit zero-padded rendering of `n` (for `n < 10000`). -/
def pad4 (n : Nat) : List Char :=
  [digitChar (n / 1000), digitChar (n / 100), digitChar (n / 10), digitChar n]

/-- Proleptic Gregorian civil date (year, month, day) of a count of days since
1970-01-01, the standard civil-from-days computation underlying
`Date.prototype.toISOString`. -/
def civilFromDays (z0 : Int) : Int × Int × Int :=
  let z := z0 + 719468
  let era := Int.ediv z 146097
  let doe := z - era * 146097
  let yoe := Int.ediv (doe - Int.ediv doe 1460 + Int.ediv doe 36524 - Int.ediv doe 146096) 365
  let y := yoe + era * 400
  let doy := doe - (365 * yoe + Int.ediv yoe 4 - Int.ediv yoe 100)
  let mp := Int.ediv (5 * doy + 2) 153
  let d := doy - Int.ediv (153 * mp + 2) 5 + 1
  let m := mp + (if mp < 10 then 3 else -9)
  (y + (if m ≤ 2 then 1 else 0), m, d)

/-- Model of `startDate.toISOString().replace(/[-:]/g, '').split('.')[0]` in
`createEventRecord`: the UTC instant `t` (ms since epoch) rendered as
`YYYYMMDDTHHMMSS` (the 4-digit-year format of `toISOString`, which covers years
0 through 9999, punctuation stripped and the fractional part dropped). -/
def dateStrChars (t : Int) : List Char :=
  let days := Int.ediv t 86400000
  let msOfDay := (Int.emod t 86400000).toNat
  let c := civilFromDays days
  pad4 c.1.toNat ++ pad2 c.2.1.toNat ++ pad2 c.2.2.toNat ++
    'T' :: (pad2 (msOfDay / 3600000) ++ pad2 (msOfDay % 3600000 / 60000) ++
      pad2 (msOfDay % 60000 / 1000))

/-- Decimal digit test, as in the character class `\d`. -/
def isDigitChar (c : Char) : Bool := decide ('0' ≤ c) && decide (c ≤ '9')

/-- Model of the regular-expression test `/^\d{8}(T\d{6})?$/` used by
`getBaseIdFromEventId` in `route.ts`. -/
def isTimestampChars (l : List Char) : Bool :=
  (l.length == 8 && l.all isDigitChar) ||
    (l.length == 15 && (l.take 8).all isDigitChar &&
      (l.drop 8).take 1 == ['T'] && (l.drop 9).all isDigitChar)

/-- Model of `String.prototype.split` with a one-character separator:
`splitOnChar c l` splits `l` at every occurrence of `c`, keeping empty pieces,
and yields `[l]` when `c` does not occur (and `[[]]` on the empty string). -/
def splitOnChar (sep : Char) : List Char → List (List Char)
  | [] => [[]]
  | c :: cs =>
    let r := splitOnChar sep cs
    if c = sep then [] :: r
    else
      match r with
      | [] => [[c]]
      | y :: ys => (c :: y) :: ys

/-- Model of `Array.prototype.join` with a one-character separator. -/
def joinOnChar (sep : Char) : List (List Char) → List Char
  | [] => []
  | [x] => x
  | x :: xs => x ++ sep :: joinOnChar sep xs

/-- Embedding of `getBaseIdFromEventId` from `route.ts` (lines 127-142): split
the id on underscores; when there are at least two parts and the last matches
`/^\d{8}(T\d{6})?$/`, drop it and re-join, otherwise return the id unchanged. -/
def getBaseIdFromEventId (eventId : List Char) : List Char :=
  let parts := splitOnChar '_' eventId
  if parts.length ≤ 1 then eventId
  else
    let lastPart := (parts.getLast?).getD []
    if isTimestampChars lastPart then joinOnChar '_' parts.dropLast
    else eventId

/-- Embedding of the page-local `getBaseIdFromEventId` from `page.tsx`
(lines 239-251), which requires the suffix to be exactly 15 characters matching
`/^\d{8}T\d{6}$/` (unlike the route version it does not strip a bare 8-digit
suffix). -/
def pageBaseIdFromEventId (eventId : List Char) : List Char :=
  if eventId.contains '_' then
    let parts := splitOnChar '_' eventId
    let lastPart := (parts.getLast?).getD []
    if lastPart.length == 15 &&
        ((lastPart.take 8).all isDigitChar && (lastPart.drop 8).take 1 == ['T'] &&
          (lastPart.drop 9).all isDigitChar) then
      joinOnChar '_' parts.dropLast
    else eventId
  else eventId

/-- Feed category passed to `syncIcsCalendar` and `expandEvent`. -/
inductive SyncSource where
  | ics
  | apple_calendar
deriving DecidableEq, Repr

/-- Parsed event definition, the model of an `ICAL.Event`: optional UID,
summary, nominal start and end instants, all-day flag of the start, optional
duration (seconds), location, organizer, description, recurrence flag, and the
recurrence-rule iterator as a stream of candidate start instants in which
`.error` models a thrown exception and `.ok none` exhaustion. -/
structure EventDef where
  uid : Option (List Char)
  summary : Option String
  startDate : Option Int
  endDate : Option Int
  startIsDate : Bool
  durationSecs : Option Int
  location : Option String
  organizer : Option String
  description : Option String
  isRecurring : Bool
  iter : Nat → Except Unit (Option Int)

/-- Occurrence record produced by `createEventRecord` and upserted into the
`appointments` table. Instants are ms since epoch (stored as ISO strings at the
database boundary). -/
structure Appointment where
  id : List Char
  subject : String
  start_time : Int
  end_time : Int
  location : String
  organizer_email : String
  organizer_name : String
  attendees : List String
  body_preview : String
  is_all_day : Bool
  source : SyncSource
  updated_at : Int
deriving DecidableEq, Repr

/-- Model of the JavaScript `x || d` default for possibly-absent strings:
`none` (null/undefined) and the empty string are both falsy. -/
def jsOrStr (o : Option String) (d : String) : String :=
  match o with
  | some s => if s = "" then d else s
  | none => d

/-- Embedding of `createEventRecord` from `route.ts` (lines 369-417): returns
`none` when no start instant is given; otherwise derives the end instant from
the explicit duration, else from the nominal start/end span, else one hour, and
builds the record whose id is `uid + "_" + compact timestamp of the start`
(with an `unknown_<now>` fallback uid when the event has no truthy UID). -/
def createEventRecord (ev : EventDef) (startDate : Option Int) (src : SyncSource)
    (now : Int) : Option Appointment :=
  match startDate with
  | none => none
  | some st =>
    let uid : List Char :=
      match ev.uid with
      | some u => if u = [] then "unknown_".toList ++ Nat.toDigits 10 now.toNat else u
      | none => "unknown_".toList ++ Nat.toDigits 10 now.toNat
    let endT : Int :=
      match ev.durationSecs with
      | some dsec => st + dsec * 1000
      | none =>
        match ev.endDate with
        | some _ =>
          match ev.startDate, ev.endDate with
          | some os, some oe => st + (oe - os)
          | _, _ => st + 3600000
        | none => st + 3600000
    some
      { id := uid ++ '_' :: dateStrChars st
        subject := jsOrStr ev.summary "No Title"
        start_time := st
        end_time := endT
        location := jsOrStr ev.location ""
        organizer_email := jsOrStr ev.organizer ""
        organizer_name := ""
        attendees := []
        body_preview := jsOrStr ev.description ""
        is_all_day := ev.startIsDate
        source := src
        updated_at := now }

/-- Fixed list of free/busy placeholder phrases from `route.ts` line 152. -/
def STATUS_WORDS : List String :=
  ["[Free]", "[Busy]", "[Tentative]", "[Out of Office]", "[Working Elsewhere]"]

/-- ASCII model of `String.prototype.toLowerCase`. -/
def toLowerStr (s : String) : String := String.mk (s.toList.map Char.toLower)

/-- Model of `String.prototype.includes`: substring containment. -/
def strIncludes (s sub : String) : Bool := decide (sub.toList <:+: s.toList)

/-- Embedding of the recurring-candidate `while` loop of `expandEvent`
(`route.ts` lines 337-350). `next` is the candidate fetched before the loop
condition is checked, `i` its index in the stream, and `fuel` the remaining
iteration budget (`maxIterations - count`, starting at 500). A thrown exception
anywhere in the iteration (modelled by `.error`) makes the second component
`true`, which the caller turns into the single-occurrence fallback. -/
def expandLoop (it : Nat → Except Unit (Option Int)) (ev : EventDef)
    (rangeStart rangeEnd : Int) (src : SyncSource) (now : Int) :
    Except Unit (Option Int) → Nat → Nat → List Appointment × Bool
  | .error _, _, _ => ([], true)
  | .ok none, _, _ => ([], false)
  | .ok (some d), i, fuel =>
    match fuel with
    | 0 => ([], false)
    | Nat.succ fuel2 =>
      if rangeEnd < d then ([], false)
      else
        let rest := expandLoop it ev rangeStart rangeEnd src now (it (i + 1)) (i + 1) fuel2
        if rangeStart ≤ d then
          match createEventRecord ev (some d) src now with
          | some r => (r :: rest.1, rest.2)
          | none => rest
        else rest

/-- Embedding of `expandEvent` from `route.ts` (lines 298-367): drop the whole
event when it is a work-calendar free/busy placeholder spanning at least 24
hours; expand a recurring event through the capped iterator loop, appending a
single fallback occurrence at the nominal start when iteration throws; emit a
non-recurring event at its nominal start iff that start lies in the window.
`skipFreeCheck` is the work-calendar placeholder test of lines 308-322: the
subject case-insensitively contains a status word and the nominal span is at
least 24 hours. -/
def skipFreeCheck (ev : EventDef) (src : SyncSource) : Bool :=
  decide (src = SyncSource.ics) &&
  STATUS_WORDS.any (fun sw =>
    strIncludes (toLowerStr (jsOrStr ev.summary "")) (toLowerStr sw)) &&
  (match ev.startDate, ev.endDate with
   | some sd, some ed => decide (ed - sd ≥ 86400000)
   | _, _ => false)

/-- Embedding of the body of `expandEvent` (see the comment on
`skipFreeCheck` above for the source layout). -/
def expandEvent (ev : EventDef) (rangeStart rangeEnd : Int) (src : SyncSource)
    (now : Int) : List Appointment :=
  if skipFreeCheck ev src then []
  else if ev.isRecurring then
    let res := expandLoop ev.iter ev rangeStart rangeEnd src now (ev.iter 0) 0 500
    if res.2 then res.1 ++ (createEventRecord ev ev.startDate src now).toList
    else res.1
  else
    match ev.startDate with
    | some sd =>
      if rangeStart ≤ sd && sd ≤ rangeEnd then (createEventRecord ev (some sd) src now).toList
      else []
    | none => []

/-- Projection of an `Appointment` that zeroes the `updated_at` field, used to
state equality of records up to the last-updated timestamp. -/
def stripUpdated (a : Appointment) : Appointment := { a with updated_at := 0 }

theorem splitOnChar_ne_nil (sep : Char) (l : List Char) : splitOnChar sep l ≠ [] := by
  cases l with
  | nil => simp [splitOnChar]
  | cons c cs =>
    simp only [splitOnChar]
    split
    · simp
    · cases h : splitOnChar sep cs <;> simp

theorem joinOnChar_splitOnChar (sep : Char) (l : List Char) :
    joinOnChar sep (splitOnChar sep l) = l := by
  induction l with
  | nil => simp [splitOnChar, joinOnChar]
  | cons c cs ih =>
    simp only [splitOnChar]
    split
    · rename_i hc
      subst hc
      cases h : splitOnChar c cs with
      | nil => exact absurd h (splitOnChar_ne_nil c cs)
      | cons y ys =>
        rw [h] at ih
        simp [joinOnChar, ih]
    · cases h : splitOnChar sep cs with
      | nil => exact absurd h (splitOnChar_ne_nil sep cs)
      | cons y ys =>
        rw [h] at ih
        cases ys with
        | nil => simp_all [joinOnChar]
        | cons z zs => simp_all [joinOnChar]

theorem splitOnChar_of_not_mem (sep : Char) (l : List Char) (h : sep ∉ l) :
    splitOnChar sep l = [l] := by
  induction l with
  | nil => simp [splitOnChar]
  | cons c cs ih =>
    simp only [List.mem_cons, not_or] at h
    simp only [splitOnChar]
    rw [if_neg (fun hc => h.1 hc.symm), ih h.2]

theorem splitOnChar_append (sep : Char) (u ts : List Char) (h : sep ∉ ts) :
    splitOnChar sep (u ++ sep :: ts) = splitOnChar sep u ++ [ts] := by
  induction u with
  | nil =>
    simp only [List.nil_append, splitOnChar, if_pos rfl]
    rw [splitOnChar_of_not_mem sep ts h]
    simp [splitOnChar]
  | cons c cs ih =>
    simp only [List.cons_append, splitOnChar, List.append_eq]
    split
    · rw [ih]
      simp
    · rw [ih]
      cases hs : splitOnChar sep cs with
      | nil => exact absurd hs (splitOnChar_ne_nil _ _)
      | cons y ys => simp

theorem isDigitChar_digitChar (n : Nat) : isDigitChar (digitChar n) = true := by
  have h : n % 10 < 10 := Nat.mod_lt _ (by omega)
  unfold digitChar
  set m := n % 10 with hm
  interval_cases m <;> decide

theorem digitChar_ne_underscore (n : Nat) : digitChar n ≠ '_' := by
  intro h
  have hd := isDigitChar_digitChar n
  rw [h] at hd
  exact absurd hd (by decide)

theorem isTimestampChars_dateStrChars (t : Int) :
    isTimestampChars (dateStrChars t) = true := by
  simp only [dateStrChars, pad4, pad2, isTimestampChars]
  simp [isDigitChar_digitChar]

theorem underscore_not_mem_dateStrChars (t : Int) : '_' ∉ dateStrChars t := by
  intro h
  have hall : (dateStrChars t).all (fun c => isDigitChar c || c == 'T') = true := by
    simp [dateStrChars, pad4, pad2, isDigitChar_digitChar]
  have hmem := List.all_eq_true.mp hall _ h
  simp only [Bool.or_eq_true, beq_iff_eq] at hmem
  rcases hmem with hd | ht
  · exact absurd hd (by decide)
  · exact absurd ht (by decide)

theorem getBaseIdFromEventId_append (uid ts : List Char)
    (hts : isTimestampChars ts = true) (hn : '_' ∉ ts) :
    getBaseIdFromEventId (uid ++ '_' :: ts) = uid := by
  have hsplit := splitOnChar_append '_' uid ts hn
  have hne := splitOnChar_ne_nil '_' uid
  simp only [getBaseIdFromEventId, hsplit]
  rw [if_neg]
  · rw [List.getLast?_concat, Option.getD_some, hts, if_pos rfl, List.dropLast_concat,
      joinOnChar_splitOnChar]
  · simp only [List.length_append, List.length_singleton, not_le]
    have : 0 < (splitOnChar '_' uid).length := List.length_pos.mpr hne
    omega

theorem createEventRecord_isSome (ev : EventDef) (st : Int) (src : SyncSource) (now : Int) :
    (createEventRecord ev (some st) src now).isSome = true := by
  simp [createEventRecord]

theorem createEventRecord_start_time (ev : EventDef) (st : Int) (src : SyncSource)
    (now : Int) (r : Appointment) (h : createEventRecord ev (some st) src now = some r) :
    r.start_time = st := by
  simp only [createEventRecord, Option.some.injEq] at h
  rw [← h]

theorem createEventRecord_id_eq (ev : EventDef) (st : Int) (src : SyncSource) (now : Int)
    (u : List Char) (hu : ev.uid = some u) (hne : u ≠ []) (r : Appointment)
    (h : createEventRecord ev (some st) src now = some r) :
    r.id = u ++ '_' :: dateStrChars st := by
  simp only [createEventRecord, hu, if_neg hne, Option.some.injEq] at h
  rw [← h]

theorem createEventRecord_strip_now (ev : EventDef) (sd : Option Int) (src : SyncSource)
    (n1 n2 : Int) (u : List Char) (hu : ev.uid = some u) (hne : u ≠ []) :
    Option.map stripUpdated (createEventRecord ev sd src n1) =
      Option.map stripUpdated (createEventRecord ev sd src n2) := by
  cases sd with
  | none => rfl
  | some st => simp [createEventRecord, hu, if_neg hne, stripUpdated]

theorem expandLoop_strip_now (it : Nat → Except Unit (Option Int)) (ev : EventDef)
    (rs re : Int) (src : SyncSource) (n1 n2 : Int) (u : List Char)
    (hu : ev.uid = some u) (hne : u ≠ []) :
    ∀ fuel nx i,
      (expandLoop it ev rs re src n1 nx i fuel).1.map stripUpdated =
        (expandLoop it ev rs re src n2 nx i fuel).1.map stripUpdated ∧
      (expandLoop it ev rs re src n1 nx i fuel).2 =
        (expandLoop it ev rs re src n2 nx i fuel).2 := by
  intro fuel
  induction fuel with
  | zero =>
    intro nx i
    rcases nx with e | o
    · simp [expandLoop]
    · rcases o with _ | d <;> simp [expandLoop]
  | succ f ih =>
    intro nx i
    rcases nx with e | o
    · simp [expandLoop]
    · rcases o with _ | d
      · simp [expandLoop]
      · by_cases hre : re < d
        · simp [expandLoop, hre]
        · have hrec1 := createEventRecord_isSome ev d src n1
          have hrec2 := createEventRecord_isSome ev d src n2
          obtain ⟨r1, hr1⟩ := Option.isSome_iff_exists.mp hrec1
          obtain ⟨r2, hr2⟩ := Option.isSome_iff_exists.mp hrec2
          have hs : stripUpdated r1 = stripUpdated r2 := by
            have := createEventRecord_strip_now ev (some d) src n1 n2 u hu hne
            simpa [hr1, hr2] using this
          have ihx := ih (it (i + 1)) (i + 1)
          by_cases hrs : rs ≤ d
          · simp [expandLoop, hre, hrs, hr1, hr2, ihx.1, ihx.2, hs]
          · simp [expandLoop, hre, hrs, ihx.1, ihx.2]

theorem expandLoop_length_le (it : Nat → Except Unit (Option Int)) (ev : EventDef)
    (rs re : Int) (src : SyncSource) (now : Int) :
    ∀ fuel nx i, (expandLoop it ev rs re src now nx i fuel).1.length ≤ fuel := by
  intro fuel
  induction fuel with
  | zero =>
    intro nx i
    rcases nx with e | o
    · simp [expandLoop]
    · rcases o with _ | d <;> simp [expandLoop]
  | succ f ih =>
    intro nx i
    rcases nx with e | o
    · simp [expandLoop]
    · rcases o with _ | d
      · simp [expandLoop]
      · by_cases hre : re < d
        · simp [expandLoop, hre]
        · have ihx := ih (it (i + 1)) (i + 1)
          by_cases hrs : rs ≤ d
          · cases hr : createEventRecord ev (some d) src now with
            | none => simp [expandLoop, hre, hrs, hr]; omega
            | some r => simp [expandLoop, hre, hrs, hr]; omega
          · simp [expandLoop, hre, hrs]; omega

theorem expandLoop_start_mem (it : Nat → Except Unit (Option Int)) (ev : EventDef)
    (rs re : Int) (src : SyncSource) (now : Int) :
    ∀ fuel nx i o, o ∈ (expandLoop it ev rs re src now nx i fuel).1 →
      rs ≤ o.start_time ∧ o.start_time ≤ re := by
  intro fuel
  induction fuel with
  | zero =>
    intro nx i o ho
    rcases nx with e | oo
    · simp [expandLoop] at ho
    · rcases oo with _ | d <;> simp [expandLoop] at ho
  | succ f ih =>
    intro nx i o ho
    rcases nx with e | oo
    · simp [expandLoop] at ho
    · rcases oo with _ | d
      · simp [expandLoop] at ho
      · by_cases hre : re < d
        · simp [expandLoop, hre] at ho
        · by_cases hrs : rs ≤ d
          · cases hr : createEventRecord ev (some d) src now with
            | none =>
              simp only [expandLoop, if_neg hre, if_pos hrs, hr] at ho
              exact ih (it (i + 1)) (i + 1) o ho
            | some r =>
              simp only [expandLoop, if_neg hre, if_pos hrs, hr, List.mem_cons] at ho
              rcases ho with ho | ho
              · have := createEventRecord_start_time ev d src now r hr
                rw [ho]
                omega
              · exact ih (it (i + 1)) (i + 1) o ho
          · simp only [expandLoop, if_neg hre, if_neg hrs] at ho
            exact ih (it (i + 1)) (i + 1) o ho

theorem expandLoop_agree (ev : EventDef) (rs re : Int) (src : SyncSource) (now : Int)
    (it it2 : Nat → Except Unit (Option Int)) :
    ∀ fuel nx i, (∀ j, i < j → j ≤ i + fuel → it j = it2 j) →
      expandLoop it ev rs re src now nx i fuel =
        expandLoop it2 ev rs re src now nx i fuel := by
  intro fuel
  induction fuel with
  | zero =>
    intro nx i _
    rcases nx with e | o
    · simp [expandLoop]
    · rcases o with _ | d <;> simp [expandLoop]
  | succ f ih =>
    intro nx i hag
    rcases nx with e | o
    · simp [expandLoop]
    · rcases o with _ | d
      · simp [expandLoop]
      · by_cases hre : re < d
        · simp [expandLoop, hre]
        · have hnext : it (i + 1) = it2 (i + 1) := hag (i + 1) (by omega) (by omega)
          have ihx := ih (it2 (i + 1)) (i + 1) (fun j h1 h2 => hag j (by omega) (by omega))
          by_cases hrs : rs ≤ d
          · simp [expandLoop, hre, hrs, hnext, ihx]
          · simp [expandLoop, hre, hrs, hnext, ihx]

theorem expandLoop_mem_record (it : Nat → Except Unit (Option Int)) (ev : EventDef)
    (rs re : Int) (src : SyncSource) (now : Int) :
    ∀ fuel nx i o, o ∈ (expandLoop it ev rs re src now nx i fuel).1 →
      ∃ t, createEventRecord ev (some t) src now = some o := by
  intro fuel
  induction fuel with
  | zero =>
    intro nx i o ho
    rcases nx with e | oo
    · simp [expandLoop] at ho
    · rcases oo with _ | d <;> simp [expandLoop] at ho
  | succ f ih =>
    intro nx i o ho
    rcases nx with e | oo
    · simp [expandLoop] at ho
    · rcases oo with _ | d
      · simp [expandLoop] at ho
      · by_cases hre : re < d
        · simp [expandLoop, hre] at ho
        · by_cases hrs : rs ≤ d
          · cases hr : createEventRecord ev (some d) src now with
            | none =>
              simp only [expandLoop, if_neg hre, if_pos hrs, hr] at ho
              exact ih (it (i + 1)) (i + 1) o ho
            | some r =>
              simp only [expandLoop, if_neg hre, if_pos hrs, hr, List.mem_cons] at ho
              rcases ho with ho | ho
              · exact ⟨d, by rw [hr, ho]⟩
              · exact ih (it (i + 1)) (i + 1) o ho
          · simp only [expandLoop, if_neg hre, if_neg hrs] at ho
            exact ih (it (i + 1)) (i + 1) o ho

theorem expandEvent_mem_record (ev : EventDef) (rs re : Int) (src : SyncSource)
    (now : Int) (o : Appointment) (ho : o ∈ expandEvent ev rs re src now) :
    ∃ t, createEventRecord ev (some t) src now = some o := by
  unfold expandEvent at ho
  by_cases hsk : skipFreeCheck ev src
  · simp [hsk] at ho
  · rw [if_neg hsk] at ho
    by_cases hrec : ev.isRecurring = true
    · rw [if_pos hrec] at ho
      by_cases hth : (expandLoop ev.iter ev rs re src now (ev.iter 0) 0 500).2 = true
      · simp only [hth, if_true, List.mem_append] at ho
        rcases ho with ho | ho
        · exact expandLoop_mem_record ev.iter ev rs re src now 500 (ev.iter 0) 0 o ho
        · cases hsd : ev.startDate with
          | none => rw [hsd] at ho; simp [createEventRecord] at ho
          | some st =>
            rw [hsd] at ho
            cases hr : createEventRecord ev (some st) src now with
            | none => rw [hr] at ho; simp at ho
            | some r =>
              rw [hr] at ho
              simp only [Option.toList_some, List.mem_singleton] at ho
              exact ⟨st, by rw [hr, ho]⟩
      · simp only [Bool.not_eq_true] at hth
        simp only [hth, Bool.false_eq_true, if_false] at ho
        exact expandLoop_mem_record ev.iter ev rs re src now 500 (ev.iter 0) 0 o ho
    · rw [if_neg hrec] at ho
      cases hsd : ev.startDate with
      | none => rw [hsd] at ho; simp at ho
      | some st =>
        rw [hsd] at ho
        simp only [] at ho
        by_cases hw : (decide (rs ≤ st) && decide (st ≤ re)) = true
        · rw [if_pos hw] at ho
          cases hr : createEventRecord ev (some st) src now with
          | none => rw [hr] at ho; simp at ho
          | some r =>
            rw [hr] at ho
            simp only [Option.toList_some, List.mem_singleton] at ho
            exact ⟨st, by rw [hr, ho]⟩
        · rw [if_neg hw] at ho
          simp at ho

/-- C1: expanding the same `EventDef` (carrying a series UID) against the same
window twice, at two different wall-clock instants, yields occurrence lists
that are identical after zeroing the `updated_at` field; in particular the ids
are identical, and the id of every record built by `createEventRecord` is the
pure function `uid ++ "_" ++ compact UTC timestamp of the start instant`. -/
theorem c1_idempotent_identity (ev : EventDef) (rs re : Int) (src : SyncSource)
    (n1 n2 : Int) (u : List Char) (hu : ev.uid = some u) (hne : u ≠ []) :
    (expandEvent ev rs re src n1).map stripUpdated =
      (expandEvent ev rs re src n2).map stripUpdated ∧
    ∀ t now r, createEventRecord ev (some t) src now = some r →
      r.id = u ++ '_' :: dateStrChars t := by
  constructor
  · unfold expandEvent
    by_cases hsk : skipFreeCheck ev src
    · simp [hsk]
    · rw [if_neg hsk, if_neg hsk]
      by_cases hrec : ev.isRecurring = true
      · rw [if_pos hrec, if_pos hrec]
        obtain ⟨h1, h2⟩ :=
          expandLoop_strip_now ev.iter ev rs re src n1 n2 u hu hne 500 (ev.iter 0) 0
        have hfb := createEventRecord_strip_now ev ev.startDate src n1 n2 u hu hne
        by_cases hth : (expandLoop ev.iter ev rs re src n1 (ev.iter 0) 0 500).2 = true
        · rw [hth] at h2
          simp only [hth, ← h2, if_true, List.map_append, h1]
          cases hc1 : createEventRecord ev ev.startDate src n1 <;>
            cases hc2 : createEventRecord ev ev.startDate src n2 <;>
              simp_all
        · simp only [Bool.not_eq_true] at hth
          rw [hth] at h2
          simp only [hth, ← h2, Bool.false_eq_true, if_false, h1]
      · rw [if_neg hrec, if_neg hrec]
        cases hsd : ev.startDate with
        | none => rfl
        | some st =>
          simp only []
          have hfb := createEventRecord_strip_now ev (some st) src n1 n2 u hu hne
          by_cases hw : (decide (rs ≤ st) && decide (st ≤ re)) = true
          · rw [if_pos hw, if_pos hw]
            cases hc1 : createEventRecord ev (some st) src n1 <;>
              cases hc2 : createEventRecord ev (some st) src n2 <;>
                simp_all
          · rw [if_neg hw, if_neg hw]
  · intro t now r h
    exact createEventRecord_id_eq ev t src now u hu hne r h

def c1ev : EventDef :=
  { uid := some ('a' :: 'b' :: [])
    summary := some "Standup"
    startDate := some 50
    endDate := some 3650
    startIsDate := false
    durationSecs := none
    location := none
    organizer := none
    description := none
    isRecurring := false
    iter := fun _ => Except.ok none }

/-- Witness for C1 at a concrete non-recurring definition and two distinct
sync instants. -/
theorem c1_idempotent_identity_witness :
    (expandEvent c1ev 0 100 SyncSource.apple_calendar 5).map stripUpdated =
      (expandEvent c1ev 0 100 SyncSource.apple_calendar 7).map stripUpdated :=
  (c1_idempotent_identity c1ev 0 100 SyncSource.apple_calendar 5 7
    ('a' :: 'b' :: []) rfl (by decide)).1

/-- C2 amended: for every occurrence emitted by `expandEvent` for a definition
carrying a (non-empty) series UID, `getBaseIdFromEventId` recovers exactly that
UID from the occurrence id. -/
theorem c2_base_id_recovery_amended (ev : EventDef) (rs re : Int) (src : SyncSource)
    (now : Int) (u : List Char) (o : Appointment) (hu : ev.uid = some u)
    (hne : u ≠ []) (ho : o ∈ expandEvent ev rs re src now) :
    getBaseIdFromEventId o.id = u := by
  obtain ⟨t, ht⟩ := expandEvent_mem_record ev rs re src now o ho
  rw [createEventRecord_id_eq ev t src now u hu hne o ht]
  exact getBaseIdFromEventId_append u (dateStrChars t) (isTimestampChars_dateStrChars t)
    (underscore_not_mem_dateStrChars t)

def c2ev : EventDef :=
  { uid := some "abc".toList
    summary := some "Dinner"
    startDate := some 50000
    endDate := none
    startIsDate := false
    durationSecs := none
    location := none
    organizer := none
    description := none
    isRecurring := false
    iter := fun _ => Except.ok none }

/-- Counterexample to C2 as stated: a non-recurring (single) event does NOT
receive the bare UID as its occurrence id; `createEventRecord` suffixes every
id with the compact start timestamp, so the produced id differs from the UID. -/
theorem c2_base_id_recovery_counterexample :
    (expandEvent c2ev 0 1000000 SyncSource.apple_calendar 0).map Appointment.id =
      ["abc_19700101T000050".toList] ∧
    "abc_19700101T000050".toList ≠ "abc".toList := by
  constructor
  · rfl
  · decide

def c2amEv : EventDef :=
  { uid := some "ab".toList
    summary := none
    startDate := some 0
    endDate := none
    startIsDate := false
    durationSecs := none
    location := none
    organizer := none
    description := none
    isRecurring := false
    iter := fun _ => Except.ok none }

def c2recW : Appointment :=
  { id := "ab_19700101T000000".toList
    subject := "No Title"
    start_time := 0
    end_time := 3600000
    location := ""
    organizer_email := ""
    organizer_name := ""
    attendees := []
    body_preview := ""
    is_all_day := false
    source := SyncSource.apple_calendar
    updated_at := 3 }

/-- Witness for the amended C2 at a concrete produced occurrence. -/
theorem c2_base_id_recovery_witness : getBaseIdFromEventId c2recW.id = "ab".toList :=
  c2_base_id_recovery_amended c2amEv 0 100 SyncSource.apple_calendar 3 "ab".toList
    c2recW rfl (by decide) (by decide)

/-- C3: the recurring-candidate loop of `expandEvent`, run with its hard cap of
500 iterations, emits at most 500 occurrences, and its result depends on the
rule iterator only through the candidates at indices 0..500 — so it consumes a
bounded prefix of even an unbounded (daily-forever) rule. Termination is by
construction: `expandLoop` is a total structurally recursive function. -/
theorem c3_bounded_expansion (ev : EventDef) (rs re : Int) (src : SyncSource)
    (now : Int) :
    (expandLoop ev.iter ev rs re src now (ev.iter 0) 0 500).1.length ≤ 500 ∧
    ∀ it2 : Nat → Except Unit (Option Int),
      (∀ j, j ≤ 500 → ev.iter j = it2 j) →
      expandLoop ev.iter ev rs re src now (ev.iter 0) 0 500 =
        expandLoop it2 ev rs re src now (it2 0) 0 500 := by
  refine ⟨expandLoop_length_le ev.iter ev rs re src now 500 (ev.iter 0) 0, ?_⟩
  intro it2 hag
  rw [← hag 0 (by omega)]
  exact expandLoop_agree ev rs re src now ev.iter it2 500 (ev.iter 0) 0
    (fun j h1 h2 => hag j (by omega))

def c3ev : EventDef :=
  { uid := some "daily".toList
    summary := some "Daily forever"
    startDate := some 0
    endDate := some 1800000
    startIsDate := false
    durationSecs := none
    location := none
    organizer := none
    description := none
    isRecurring := true
    iter := fun j => Except.ok (some (86400000 * (j : Int))) }

/-- Witness for C3 at a concrete unbounded daily-forever rule. -/
theorem c3_bounded_expansion_witness :
    (expandLoop c3ev.iter c3ev 0 100 SyncSource.ics 0 (c3ev.iter 0) 0 500).1.length ≤ 500 ∧
    expandLoop c3ev.iter c3ev 0 100 SyncSource.ics 0 (c3ev.iter 0) 0 500 =
      expandLoop c3ev.iter c3ev 0 100 SyncSource.ics 0 (c3ev.iter 0) 0 500 :=
  ⟨(c3_bounded_expansion c3ev 0 100 SyncSource.ics 0).1,
    (c3_bounded_expansion c3ev 0 100 SyncSource.ics 0).2 c3ev.iter (fun _ _ => rfl)⟩

def c4ev : EventDef :=
  { uid := some "x".toList
    summary := none
    startDate := some 200
    endDate := none
    startIsDate := false
    durationSecs := none
    location := none
    organizer := none
    description := none
    isRecurring := true
    iter := fun _ => Except.error () }

/-- Counterexample to C4 as stated: when rule iteration throws, the
error-recovery path emits the fallback occurrence at the nominal start WITHOUT
checking the window, so an occurrence with start 200 is emitted for the window
[0, 100]. -/
theorem c4_window_monotonicity_counterexample :
    ¬ (∀ o ∈ expandEvent c4ev 0 100 SyncSource.ics 0,
        0 ≤ o.start_time ∧ o.start_time ≤ 100) := by
  decide

/-- C4 amended: every occurrence emitted by `expandEvent` either has its start
inside `[rangeStart, rangeEnd]` (the recurring-candidate loop and the
single-event branch both enforce this) or sits exactly at the nominal start of
the definition (the unchecked error-recovery fallback). -/
theorem c4_window_monotonicity_amended (ev : EventDef) (rs re : Int)
    (src : SyncSource) (now : Int) (o : Appointment)
    (ho : o ∈ expandEvent ev rs re src now) :
    (rs ≤ o.start_time ∧ o.start_time ≤ re) ∨ ev.startDate = some o.start_time := by
  unfold expandEvent at ho
  by_cases hsk : skipFreeCheck ev src
  · simp [hsk] at ho
  · rw [if_neg hsk] at ho
    by_cases hrec : ev.isRecurring = true
    · rw [if_pos hrec] at ho
      by_cases hth : (expandLoop ev.iter ev rs re src now (ev.iter 0) 0 500).2 = true
      · simp only [hth, if_true, List.mem_append] at ho
        rcases ho with ho | ho
        · exact Or.inl (expandLoop_start_mem ev.iter ev rs re src now 500 (ev.iter 0) 0 o ho)
        · cases hsd : ev.startDate with
          | none => rw [hsd] at ho; simp [createEventRecord] at ho
          | some st =>
            rw [hsd] at ho
            cases hr : createEventRecord ev (some st) src now with
            | none => rw [hr] at ho; simp at ho
            | some r =>
              rw [hr] at ho
              simp only [Option.toList_some, List.mem_singleton] at ho
              refine Or.inr ?_
              rw [ho, createEventRecord_start_time ev st src now r hr]
      · simp only [Bool.not_eq_true] at hth
        simp only [hth, Bool.false_eq_true, if_false] at ho
        exact Or.inl (expandLoop_start_mem ev.iter ev rs re src now 500 (ev.iter 0) 0 o ho)
    · rw [if_neg hrec] at ho
      cases hsd : ev.startDate with
      | none => rw [hsd] at ho; simp at ho
      | some st =>
        rw [hsd] at ho
        simp only [] at ho
        by_cases hw : (decide (rs ≤ st) && decide (st ≤ re)) = true
        · rw [if_pos hw] at ho
          cases hr : createEventRecord ev (some st) src now with
          | none => rw [hr] at ho; simp at ho
          | some r =>
            rw [hr] at ho
            simp only [Option.toList_some, List.mem_singleton] at ho
            simp only [Bool.and_eq_true, decide_eq_true_eq] at hw
            rw [ho, createEventRecord_start_time ev st src now r hr]
            exact Or.inl hw
        · rw [if_neg hw] at ho
          simp at ho

def c4wEv : EventDef :=
  { uid := some "w".toList
    summary := none
    startDate := some 50
    endDate := none
    startIsDate := false
    durationSecs := none
    location := none
    organizer := none
    description := none
    isRecurring := false
    iter := fun _ => Except.ok none }

def c4recW : Appointment :=
  { id := "w_19700101T000000".toList
    subject := "No Title"
    start_time := 50
    end_time := 3600050
    location := ""
    organizer_email := ""
    organizer_name := ""
    attendees := []
    body_preview := ""
    is_all_day := false
    source := SyncSource.ics
    updated_at := 0 }

/-- Witness for the amended C4 at a concrete emitted occurrence. -/
theorem c4_window_monotonicity_witness :
    (0 ≤ c4recW.start_time ∧ c4recW.start_time ≤ 100) ∨
      c4wEv.startDate = some c4recW.start_time :=
  c4_window_monotonicity_amended c4wEv 0 100 SyncSource.ics 0 c4recW (by decide)

/-- Raw `appointments` row as fetched from the store, with the dynamic typing
of the JavaScript runtime: every text field is `Option`-valued, `none`
modelling null/undefined/non-string data, `some ""` the (falsy) empty
string. -/
structure Row where
  id : Option (List Char)
  subject : Option String
  start_time : Option String
  end_time : Option String
  location : Option String
  organizer_email : Option String
  organizer_name : Option String
  is_all_day : Bool
  source : Option String
deriving DecidableEq, Repr

/-- Frontend event shape returned by `toCalendarEvent` in `lib/supabase.ts`
(note `is_all_day` is a number there, 1 or 0). -/
structure CalendarEvent where
  id : List Char
  subject : String
  start_time : String
  end_time : String
  location : String
  organizer_email : String
  organizer_name : String
  source : String
  is_all_day : Nat
deriving DecidableEq, Repr

/-- Embedding of `toCalendarEvent` from `lib/supabase.ts` (lines 75-120):
returns `none` for a null row or one whose id, start_time or end_time is not a
non-empty string or whose source is not one of the three known values;
otherwise builds the frontend event with `||`-defaults for the optional
fields. -/
def toCalendarEventRow (r : Row) : Option CalendarEvent :=
    match r.id with
    | none => none
    | some i =>
      if i = [] then none
      else
        match r.start_time with
        | none => none
        | some s =>
          if s = "" then none
          else
            match r.end_time with
            | none => none
            | some e =>
              if e = "" then none
              else
                match r.source with
                | none => none
                | some src =>
                  if src = "graph_api" ∨ src = "ics" ∨ src = "apple_calendar" then
                    some
                      { id := i
                        subject := jsOrStr r.subject "No Title"
                        start_time := s
                        end_time := e
                        location := jsOrStr r.location ""
                        organizer_email := jsOrStr r.organizer_email ""
                        organizer_name := jsOrStr r.organizer_name ""
                        source := src
                        is_all_day := if r.is_all_day then 1 else 0 }
                  else none

/-- Dispatch of `toCalendarEvent` on a possibly-null row (the body lives in
`toCalendarEventRow`). -/
def toCalendarEvent (apt : Option Row) : Option CalendarEvent :=
  match apt with
  | none => none
  | some r => toCalendarEventRow r

/-- Masking step of the GET route (`route.ts` lines 103-108): when the row
source is `apple_calendar` and the reveal cookie is absent, replace the
subject with the fixed placeholder and clear the location. -/
def maskRowEvent (revealed : Bool) (r : Row) (ev : CalendarEvent) : CalendarEvent :=
  if r.source = some "apple_calendar" ∧ revealed = false then
    { ev with subject := "[Personal Event]", location := "" }
  else ev

/-- Ignore test of the GET route filter (`route.ts` lines 89-97) on a row with
a string id. -/
def rowNotIgnored (ignB ignE : List (List Char)) (i : List Char) : Bool :=
  !(ignE.contains i) && !(ignB.contains (getBaseIdFromEventId i))

/-- Embedding of the GET read path of `route.ts` (lines 87-119): filter rows
through the two ignore sets, convert with `toCalendarEvent` (dropping `none`),
and mask personal events when not revealed. A null row, or a row whose id is
not a string, makes the filter callback dereference a non-string
(`getBaseIdFromEventId(apt.id)`), which throws a TypeError that the outer
catch turns into a 500 response; this abort is modelled by the `Except.error`
branch. -/
def getEvents (rows : List (Option Row)) (ignB ignE : List (List Char))
    (revealed : Bool) : Except String (List CalendarEvent) :=
  if rows.any (fun a =>
      match a with
      | none => true
      | some r => r.id.isNone) then
    Except.error "TypeError"
  else
    Except.ok
      ((rows.filter (fun a =>
          match a with
          | some r =>
            match r.id with
            | some i => rowNotIgnored ignB ignE i
            | none => false
          | none => false)).filterMap (fun a =>
            match toCalendarEvent a with
            | none => none
            | some ev =>
              match a with
              | some r => some (maskRowEvent revealed r ev)
              | none => none))

theorem toCalendarEventRow_spec (r : Row) (ev : CalendarEvent)
    (h : toCalendarEventRow r = some ev) :
    r.id = some ev.id ∧ ev.id ≠ [] ∧ ev.start_time ≠ "" ∧ ev.end_time ≠ "" ∧
      (ev.source = "graph_api" ∨ ev.source = "ics" ∨ ev.source = "apple_calendar") := by
  cases hid : r.id with
  | none => simp [toCalendarEventRow, hid] at h
  | some i =>
    by_cases hi : i = []
    · simp [toCalendarEventRow, hid, hi] at h
    · cases hst : r.start_time with
      | none => simp [toCalendarEventRow, hid, hi, hst] at h
      | some s =>
        by_cases hs : s = ""
        · simp [toCalendarEventRow, hid, hi, hst, hs] at h
        · cases het : r.end_time with
          | none => simp [toCalendarEventRow, hid, hi, hst, hs, het] at h
          | some e =>
            by_cases he : e = ""
            · simp [toCalendarEventRow, hid, hi, hst, hs, het, he] at h
            · cases hsrc : r.source with
              | none => simp [toCalendarEventRow, hid, hi, hst, hs, het, he, hsrc] at h
              | some src =>
                by_cases hv : src = "graph_api" ∨ src = "ics" ∨ src = "apple_calendar"
                · simp only [toCalendarEventRow, hid, hst, het, hsrc, if_neg hi,
                    if_neg hs, if_neg he, if_pos hv, Option.some.injEq] at h
                  rw [← h]
                  simp [hi, hs, he, hv]
                · simp [toCalendarEventRow, hid, hi, hst, hs, het, he, hsrc, hv] at h

theorem toCalendarEvent_valid (a : Option Row) (ev : CalendarEvent)
    (h : toCalendarEvent a = some ev) :
    ev.id ≠ [] ∧ ev.start_time ≠ "" ∧ ev.end_time ≠ "" ∧
      (ev.source = "graph_api" ∨ ev.source = "ics" ∨ ev.source = "apple_calendar") := by
  cases a with
  | none => simp [toCalendarEvent] at h
  | some r => exact (toCalendarEventRow_spec r ev h).2

theorem toCalendarEventRow_id (r : Row) (ev : CalendarEvent)
    (h : toCalendarEventRow r = some ev) : r.id = some ev.id :=
  (toCalendarEventRow_spec r ev h).1

theorem maskRowEvent_fields (revealed : Bool) (r : Row) (ev : CalendarEvent) :
    (maskRowEvent revealed r ev).id = ev.id ∧
    (maskRowEvent revealed r ev).start_time = ev.start_time ∧
    (maskRowEvent revealed r ev).end_time = ev.end_time ∧
    (maskRowEvent revealed r ev).source = ev.source := by
  unfold maskRowEvent
  split <;> simp

theorem getEvents_ok_mem (rows : List (Option Row)) (ignB ignE : List (List Char))
    (rev : Bool) (out : List CalendarEvent)
    (hok : getEvents rows ignB ignE rev = Except.ok out) (e : CalendarEvent)
    (he : e ∈ out) :
    ∃ r, some r ∈ rows ∧ ∃ ev, toCalendarEventRow r = some ev ∧ ev.id = e.id ∧
      e = maskRowEvent rev r ev ∧ rowNotIgnored ignB ignE ev.id = true := by
  unfold getEvents at hok
  by_cases hany : (rows.any fun a =>
      match a with
      | none => true
      | some r => r.id.isNone) = true
  · rw [if_pos hany] at hok
    exact absurd hok (by simp)
  · rw [if_neg hany] at hok
    simp only [Except.ok.injEq] at hok
    rw [← hok] at he
    rw [List.mem_filterMap] at he
    obtain ⟨a, ha, hg⟩ := he
    have hamem := (List.mem_filter.mp ha).1
    have hpred := (List.mem_filter.mp ha).2
    cases a with
    | none => simp at hpred
    | some r =>
      simp only [] at hpred
      cases hid : r.id with
      | none => rw [hid] at hpred; simp at hpred
      | some i =>
        rw [hid] at hpred
        simp only [] at hpred
        cases hconv : toCalendarEvent (some r) with
        | none => rw [hconv] at hg; simp at hg
        | some ev =>
          rw [hconv] at hg
          simp only [Option.some.injEq] at hg
          have hconvr : toCalendarEventRow r = some ev := hconv
          have hrid := toCalendarEventRow_id r ev hconvr
          rw [hid] at hrid
          simp only [Option.some.injEq] at hrid
          refine ⟨r, hamem, ev, hconvr, ?_, hg.symm, ?_⟩
          · rw [← hg]
            exact ((maskRowEvent_fields rev r ev).1).symm
          · rw [← hrid]
            exact hpred

/-- C7: for every stored row that converts to a valid event, the GET read path
returns an event with its id iff neither the occurrence id is in the ignored
occurrence set nor the recovered base id is in the ignored base set; and every
returned event originates from a stored row (the filter is a pure read-time
projection that never mutates the store). -/
theorem c7_ignore_precedence (rows : List (Option Row)) (ignB ignE : List (List Char))
    (rev : Bool) (out : List CalendarEvent)
    (hok : getEvents rows ignB ignE rev = Except.ok out)
    (r : Row) (ha : some r ∈ rows) (ev : CalendarEvent)
    (hconv : toCalendarEvent (some r) = some ev) :
    ((∃ e, e ∈ out ∧ e.id = ev.id) ↔
      (ignE.contains ev.id = false ∧
        ignB.contains (getBaseIdFromEventId ev.id) = false)) ∧
    ∀ e ∈ out, ∃ a, a ∈ rows ∧ ∃ r2 ev2, a = some r2 ∧
      toCalendarEvent a = some ev2 ∧ ev2.id = e.id := by
  have hconvr : toCalendarEventRow r = some ev := hconv
  constructor
  · constructor
    · rintro ⟨e, he, hide⟩
      obtain ⟨r2, _, ev2, _, hid2, _, hni⟩ :=
        getEvents_ok_mem rows ignB ignE rev out hok e he
      rw [hide] at hid2
      rw [hid2] at hni
      unfold rowNotIgnored at hni
      simp only [Bool.and_eq_true, Bool.not_eq_true'] at hni
      exact hni
    · rintro ⟨hne, hnb⟩
      refine ⟨maskRowEvent rev r ev, ?_, (maskRowEvent_fields rev r ev).1⟩
      unfold getEvents at hok
      by_cases hany : (rows.any fun a =>
          match a with
          | none => true
          | some r => r.id.isNone) = true
      · rw [if_pos hany] at hok
        exact absurd hok (by simp)
      · rw [if_neg hany] at hok
        simp only [Except.ok.injEq] at hok
        rw [← hok]
        rw [List.mem_filterMap]
        refine ⟨some r, ?_, ?_⟩
        · rw [List.mem_filter]
          refine ⟨ha, ?_⟩
          have hrid := toCalendarEventRow_id r ev hconvr
          simp only [hrid]
          unfold rowNotIgnored
          rw [hne, hnb]
          rfl
        · rw [hconv]
  · intro e he
    obtain ⟨r2, hmem, ev2, hc2, hid2, _, _⟩ :=
      getEvents_ok_mem rows ignB ignE rev out hok e he
    exact ⟨some r2, hmem, r2, ev2, rfl, hc2, hid2⟩

def c7row : Row :=
  { id := some "sid".toList
    subject := some "Meet"
    start_time := some "2025-01-01T10:00:00Z"
    end_time := some "2025-01-01T11:00:00Z"
    location := some "HQ"
    organizer_email := none
    organizer_name := none
    is_all_day := false
    source := some "ics" }

def c7evW : CalendarEvent :=
  { id := "sid".toList
    subject := "Meet"
    start_time := "2025-01-01T10:00:00Z"
    end_time := "2025-01-01T11:00:00Z"
    location := "HQ"
    organizer_email := ""
    organizer_name := ""
    source := "ics"
    is_all_day := 0 }

/-- Witness for C7 at a concrete one-row store with empty ignore sets. -/
theorem c7_ignore_precedence_witness :
    ((∃ e, e ∈ [c7evW] ∧ e.id = c7evW.id) ↔
      (([] : List (List Char)).contains c7evW.id = false ∧
        ([] : List (List Char)).contains (getBaseIdFromEventId c7evW.id) = false)) ∧
    ∀ e ∈ [c7evW], ∃ a, a ∈ [some c7row] ∧ ∃ r2 ev2, a = some r2 ∧
      toCalendarEvent a = some ev2 ∧ ev2.id = e.id :=
  c7_ignore_precedence [some c7row] [] [] true [c7evW] rfl c7row (by simp) c7evW rfl

def c10badRow : Row :=
  { id := none
    subject := some "Bad"
    start_time := some "2025-01-01T00:00:00Z"
    end_time := some "2025-01-01T01:00:00Z"
    location := none
    organizer_email := none
    organizer_name := none
    is_all_day := false
    source := some "ics" }

/-- Counterexample to C10 as stated: a stored row whose id is not a string is
NOT silently dropped; the ignore filter dereferences the id before validation,
which throws and fails the whole request (modelled by the error result), even
though the conversion alone would have rejected the row. -/
theorem c10_output_validation_counterexample :
    getEvents [some c10badRow] [] [] true = Except.error "TypeError" ∧
    toCalendarEvent (some c10badRow) = none := by
  constructor <;> rfl

/-- C10 amended: when every stored row is non-null and has a string id, the
read path succeeds; every returned event has a non-empty id, start_time and
end_time and one of the three known sources, and every returned event comes
from a row that converted successfully — a row with an empty-string id or an
invalid start_time, end_time or source is silently dropped. (A null row or a
non-string id instead fails the whole request, see the counterexample.) -/
theorem c10_output_validation_amended (rows : List (Option Row))
    (ignB ignE : List (List Char)) (rev : Bool)
    (h : ∀ a ∈ rows, (match a with
      | some r => r.id.isSome
      | none => false) = true) :
    ∃ out, getEvents rows ignB ignE rev = Except.ok out ∧
      (∀ e ∈ out, e.id ≠ [] ∧ e.start_time ≠ "" ∧ e.end_time ≠ "" ∧
        (e.source = "graph_api" ∨ e.source = "ics" ∨ e.source = "apple_calendar")) ∧
      (∀ e ∈ out, ∃ a, a ∈ rows ∧ ∃ ev, toCalendarEvent a = some ev ∧ ev.id = e.id) := by
  have hany : (rows.any fun a =>
      match a with
      | none => true
      | some r => r.id.isNone) = false := by
    by_contra hc
    rw [Bool.not_eq_false, List.any_eq_true] at hc
    obtain ⟨a, hamem, hpa⟩ := hc
    have := h a hamem
    cases a with
    | none => simp at this
    | some r =>
      simp only [] at this hpa
      rw [Option.isNone_iff_eq_none] at hpa
      rw [hpa] at this
      simp at this
  have hok : getEvents rows ignB ignE rev = Except.ok
      ((rows.filter (fun a =>
          match a with
          | some r =>
            match r.id with
            | some i => rowNotIgnored ignB ignE i
            | none => false
          | none => false)).filterMap (fun a =>
            match toCalendarEvent a with
            | none => none
            | some ev =>
              match a with
              | some r => some (maskRowEvent rev r ev)
              | none => none)) := by
    unfold getEvents
    rw [hany]
    rfl
  refine ⟨_, hok, ?_, ?_⟩
  · intro e he
    obtain ⟨r, _, ev, hconv, hid, hmask, _⟩ :=
      getEvents_ok_mem rows ignB ignE rev _ hok e he
    have hv := toCalendarEventRow_spec r ev hconv
    have hm := maskRowEvent_fields rev r ev
    rw [hmask]
    rw [hm.1, hm.2.1, hm.2.2.1, hm.2.2.2]
    exact hv.2
  · intro e he
    obtain ⟨r, hmem, ev, hconv, hid, _, _⟩ :=
      getEvents_ok_mem rows ignB ignE rev _ hok e he
    exact ⟨some r, hmem, ev, hconv, hid⟩

def c10rowA : Row :=
  { id := some "a".toList
    subject := some "A"
    start_time := some "2025-02-01T09:00:00Z"
    end_time := some "2025-02-01T10:00:00Z"
    location := none
    organizer_email := none
    organizer_name := none
    is_all_day := false
    source := some "ics" }

def c10rowB : Row :=
  { id := some "b".toList
    subject := some "B"
    start_time := some "2025-02-01T09:00:00Z"
    end_time := some "2025-02-01T10:00:00Z"
    location := none
    organizer_email := none
    organizer_name := none
    is_all_day := false
    source := some "bogus" }

/-- Witness for the amended C10: a store with one valid row and one row with an
unknown source succeeds, the invalid row being dropped. -/
theorem c10_output_validation_witness :
    ∃ out, getEvents [some c10rowA, some c10rowB] [] [] true = Except.ok out ∧
      (∀ e ∈ out, e.id ≠ [] ∧ e.start_time ≠ "" ∧ e.end_time ≠ "" ∧
        (e.source = "graph_api" ∨ e.source = "ics" ∨ e.source = "apple_calendar")) ∧
      (∀ e ∈ out, ∃ a, a ∈ [some c10rowA, some c10rowB] ∧ ∃ ev,
        toCalendarEvent a = some ev ∧ ev.id = e.id) :=
  c10_output_validation_amended [some c10rowA, some c10rowB] [] [] true (by decide)

/-- Frontend event as consumed by `page.tsx`: the row fields after JSON
transport, with the start/end instants parsed to ms since epoch (the page
always wraps them in `new Date(...).getTime()`). -/
structure PageEvent where
  id : List Char
  subject : String
  startMs : Int
  endMs : Int
  location : String
  source : String
  is_all_day : Nat
deriving DecidableEq, Repr

/-- Embedding of the `isEventIgnored` helper of `getOverlappingEventIds`
(`page.tsx` lines 368-375): the occurrence id or its recovered base id is in an
ignore set. -/
def isEventIgnoredPage (ignB ignE : List (List Char)) (e : PageEvent) : Bool :=
  ignE.contains e.id || ignB.contains (pageBaseIdFromEventId e.id)

/-- Embedding of the `isAllDayOrMultiDayFree` helper (`page.tsx` lines
379-391): subject is exactly `"[Free]"` or `"Free"`, and the event is all-day
(truthy `is_all_day`) or spans at least 24 hours. -/
def isAllDayOrMultiDayFree (e : PageEvent) : Bool :=
  if e.subject ≠ "[Free]" ∧ e.subject ≠ "Free" then false
  else if e.is_all_day ≠ 0 then true
  else decide (e.endMs - e.startMs ≥ 86400000)

/-- The `personalEvents` list of `getOverlappingEventIds` (`page.tsx` lines
395-399): apple_calendar events that are neither ignored nor all-day/multi-day
Free placeholders. -/
def personalFiltered (events : List PageEvent) (ignB ignE : List (List Char)) :
    List PageEvent :=
  events.filter (fun e =>
    e.source == "apple_calendar" && !(isEventIgnoredPage ignB ignE e) &&
      !(isAllDayOrMultiDayFree e))

/-- The `workEvents` list (`page.tsx` lines 400-403): graph_api or ics events
that are not ignored. -/
def workFiltered (events : List PageEvent) (ignB ignE : List (List Char)) :
    List PageEvent :=
  events.filter (fun e =>
    (e.source == "graph_api" || e.source == "ics") &&
      !(isEventIgnoredPage ignB ignE e))

/-- Inner loop body of the overlap detector (`page.tsx` lines 409-418): for a
fixed personal event `p`, add both ids when the half-open intervals intersect
strictly. The JavaScript `Set` is modelled by a list up to membership. -/
def overlapStepW (p : PageEvent) (acc : List (List Char)) (w : PageEvent) :
    List (List Char) :=
  if p.startMs < w.endMs ∧ p.endMs > w.startMs then w.id :: p.id :: acc else acc

/-- Outer loop body: fold the inner loop over all work events. -/
def overlapStepP (ws : List PageEvent) (acc : List (List Char)) (p : PageEvent) :
    List (List Char) :=
  ws.foldl (overlapStepW p) acc

/-- Embedding of `getOverlappingEventIds` from `page.tsx` (lines 364-423):
empty when overlap detection is off, otherwise the nested personal-by-work
pair scan. -/
def getOverlappingEventIds (detectOverlap : Bool) (events : List PageEvent)
    (ignB ignE : List (List Char)) : List (List Char) :=
  if !detectOverlap then []
  else
    (personalFiltered events ignB ignE).foldl
      (overlapStepP (workFiltered events ignB ignE)) []

theorem mem_foldl_overlapStepW (p : PageEvent) (x : List Char) :
    ∀ (ws : List PageEvent) (acc : List (List Char)),
      x ∈ ws.foldl (overlapStepW p) acc ↔
        x ∈ acc ∨ ∃ w, w ∈ ws ∧ (p.startMs < w.endMs ∧ p.endMs > w.startMs) ∧
          (x = p.id ∨ x = w.id) := by
  intro ws
  induction ws with
  | nil => intro acc; simp
  | cons w ws ih =>
    intro acc
    rw [List.foldl_cons, ih]
    simp only [List.mem_cons]
    by_cases hc : p.startMs < w.endMs ∧ p.endMs > w.startMs
    · simp only [overlapStepW, if_pos hc, List.mem_cons]
      constructor
      · rintro ((hx | hx | hx) | ⟨w2, hw2, hc2, hx⟩)
        · exact Or.inr ⟨w, Or.inl rfl, hc, Or.inr hx⟩
        · exact Or.inr ⟨w, Or.inl rfl, hc, Or.inl hx⟩
        · exact Or.inl hx
        · exact Or.inr ⟨w2, Or.inr hw2, hc2, hx⟩
      · rintro (hx | ⟨w2, (hw2 | hw2), hc2, hx⟩)
        · exact Or.inl (Or.inr (Or.inr hx))
        · subst hw2
          rcases hx with hx | hx
          · exact Or.inl (Or.inr (Or.inl hx))
          · exact Or.inl (Or.inl hx)
        · exact Or.inr ⟨w2, hw2, hc2, hx⟩
    · simp only [overlapStepW, if_neg hc]
      constructor
      · rintro (hx | ⟨w2, hw2, hc2, hx⟩)
        · exact Or.inl hx
        · exact Or.inr ⟨w2, Or.inr hw2, hc2, hx⟩
      · rintro (hx | ⟨w2, (hw2 | hw2), hc2, hx⟩)
        · exact Or.inl hx
        · subst hw2; exact absurd hc2 hc
        · exact Or.inr ⟨w2, hw2, hc2, hx⟩

theorem mem_foldl_overlapStepP (ws : List PageEvent) (x : List Char) :
    ∀ (ps : List PageEvent) (acc : List (List Char)),
      x ∈ ps.foldl (overlapStepP ws) acc ↔
        x ∈ acc ∨ ∃ p, p ∈ ps ∧ ∃ w, w ∈ ws ∧
          (p.startMs < w.endMs ∧ p.endMs > w.startMs) ∧ (x = p.id ∨ x = w.id) := by
  intro ps
  induction ps with
  | nil => intro acc; simp
  | cons p ps ih =>
    intro acc
    rw [List.foldl_cons, ih]
    unfold overlapStepP
    rw [mem_foldl_overlapStepW]
    simp only [List.mem_cons]
    constructor
    · rintro ((hx | ⟨w, hw, hc, hx⟩) | ⟨p2, hp2, w, hw, hc, hx⟩)
      · exact Or.inl hx
      · exact Or.inr ⟨p, Or.inl rfl, w, hw, hc, hx⟩
      · exact Or.inr ⟨p2, Or.inr hp2, w, hw, hc, hx⟩
    · rintro (hx | ⟨p2, (hp2 | hp2), w, hw, hc, hx⟩)
      · exact Or.inl (Or.inl hx)
      · subst hp2; exact Or.inl (Or.inr ⟨w, hw, hc, hx⟩)
      · exact Or.inr ⟨p2, hp2, w, hw, hc, hx⟩

/-- C5: with overlap detection on, an id is in the overlap set iff some
personal occurrence `p` (apple_calendar, not ignored, not an all-day or
24h-plus "Free"/"[Free]" placeholder) and some work occurrence `w` (graph_api
or ics, not ignored) intersect strictly (`p.start < w.end` and
`p.end > w.start`) and the id is one of the pair; touching endpoints never
flag, and no same-category pair contributes. -/
theorem c5_overlap_semantics (events : List PageEvent) (ignB ignE : List (List Char))
    (x : List Char) :
    x ∈ getOverlappingEventIds true events ignB ignE ↔
      ∃ p, p ∈ personalFiltered events ignB ignE ∧
        ∃ w, w ∈ workFiltered events ignB ignE ∧
          (p.startMs < w.endMs ∧ p.endMs > w.startMs) ∧ (x = p.id ∨ x = w.id) := by
  unfold getOverlappingEventIds
  rw [if_neg (by simp)]
  rw [mem_foldl_overlapStepP]
  simp

def c5P : PageEvent :=
  { id := "p1".toList
    subject := "Gym"
    startMs := 0
    endMs := 100
    location := ""
    source := "apple_calendar"
    is_all_day := 0 }

def c5W : PageEvent :=
  { id := "w1".toList
    subject := "Standup"
    startMs := 50
    endMs := 150
    location := ""
    source := "ics"
    is_all_day := 0 }

/-- Witness for C5 at a concrete overlapping personal/work pair. -/
theorem c5_overlap_semantics_witness :
    "p1".toList ∈ getOverlappingEventIds true [c5P, c5W] [] [] ↔
      ∃ p, p ∈ personalFiltered [c5P, c5W] [] [] ∧
        ∃ w, w ∈ workFiltered [c5P, c5W] [] [] ∧
          (p.startMs < w.endMs ∧ p.endMs > w.startMs) ∧
          ("p1".toList = p.id ∨ "p1".toList = w.id) :=
  c5_overlap_semantics [c5P, c5W] [] [] "p1".toList

/-- Page-level view of the masking applied by the GET route before the events
reach `getOverlappingEventIds`: for an apple_calendar event with the reveal
flag off, the subject becomes the fixed placeholder and the location is
cleared; ids, instants, source and the all-day flag are untouched. -/
def maskPage (revealed : Bool) (e : PageEvent) : PageEvent :=
  if e.source = "apple_calendar" ∧ revealed = false then
    { e with subject := "[Personal Event]", location := "" }
  else e

def c6P : PageEvent :=
  { id := "p2".toList
    subject := "Free"
    startMs := 0
    endMs := 100
    location := ""
    source := "apple_calendar"
    is_all_day := 1 }

def c6W : PageEvent :=
  { id := "w2".toList
    subject := "Meeting"
    startMs := 50
    endMs := 150
    location := ""
    source := "ics"
    is_all_day := 0 }

/-- Counterexample to C6 as stated: overlap membership is NOT independent of
masking. An all-day personal event titled "Free" is excluded from overlap
detection when unmasked, but its masked form "[Personal Event]" escapes the
Free-placeholder drop and flags an overlap, so the reveal flag changes the
overlap set. -/
theorem c6_masking_independence_counterexample :
    getOverlappingEventIds true ([c6P, c6W].map (maskPage false)) [] [] ≠
      getOverlappingEventIds true ([c6P, c6W].map (maskPage true)) [] [] := by
  decide

theorem maskPage_fields (revealed : Bool) (e : PageEvent) :
    (maskPage revealed e).id = e.id ∧ (maskPage revealed e).startMs = e.startMs ∧
    (maskPage revealed e).endMs = e.endMs ∧ (maskPage revealed e).source = e.source ∧
    (maskPage revealed e).is_all_day = e.is_all_day := by
  unfold maskPage
  split <;> simp

theorem overlapStepW_maskPage (revealed : Bool) (p : PageEvent) :
    overlapStepW (maskPage revealed p) = overlapStepW p := by
  funext acc w
  have h := maskPage_fields revealed p
  unfold overlapStepW
  rw [h.1, h.2.1, h.2.2.1]

/-- C6 amended: the overlap set is invariant under masking as long as no
personal event is titled exactly "Free" or "[Free]"; for such inputs
`getOverlappingEventIds` computes the same list on masked and unmasked events
(the detector uses only ids, instants, sources and the Free-placeholder
subject test, and masking renames subjects). -/
theorem c6_masking_independence_amended (events : List PageEvent)
    (ignB ignE : List (List Char))
    (h : ∀ e ∈ events, e.source = "apple_calendar" →
      e.subject ≠ "Free" ∧ e.subject ≠ "[Free]") :
    getOverlappingEventIds true (events.map (maskPage false)) ignB ignE =
      getOverlappingEventIds true events ignB ignE := by
  have hpersonal : personalFiltered (events.map (maskPage false)) ignB ignE =
      (personalFiltered events ignB ignE).map (maskPage false) := by
    unfold personalFiltered
    rw [List.filter_map]
    congr 1
    apply List.filter_congr
    intro e he
    have hf := maskPage_fields false e
    simp only [Function.comp_apply]
    by_cases hsrc : e.source = "apple_calendar"
    · have hsub := h e he hsrc
      have hmf : isAllDayOrMultiDayFree (maskPage false e) = isAllDayOrMultiDayFree e := by
        unfold maskPage
        rw [if_pos ⟨hsrc, rfl⟩]
        unfold isAllDayOrMultiDayFree
        simp only []
        rw [if_pos (by constructor <;> decide), if_pos (by simp [hsub.1, hsub.2])]
      have hig : isEventIgnoredPage ignB ignE (maskPage false e) =
          isEventIgnoredPage ignB ignE e := by
        unfold isEventIgnoredPage
        rw [hf.1]
      rw [hmf, hig, hf.2.2.2.1]
    · have hid : maskPage false e = e := by
        unfold maskPage
        rw [if_neg (by intro hc; exact hsrc hc.1)]
      rw [hid]
  have hwork : workFiltered (events.map (maskPage false)) ignB ignE =
      workFiltered events ignB ignE := by
    unfold workFiltered
    rw [List.filter_map]
    have hstep : ∀ e ∈ events,
        ((fun e => (e.source == "graph_api" || e.source == "ics") &&
          !(isEventIgnoredPage ignB ignE e)) ∘ maskPage false) e =
        (fun e => (e.source == "graph_api" || e.source == "ics") &&
          !(isEventIgnoredPage ignB ignE e)) e := by
      intro e _
      have hf := maskPage_fields false e
      simp only [Function.comp_apply]
      unfold isEventIgnoredPage
      rw [hf.1, hf.2.2.2.1]
    rw [List.filter_congr hstep]
    by_cases hnil : (events.filter (fun e =>
        (e.source == "graph_api" || e.source == "ics") &&
          !(isEventIgnoredPage ignB ignE e))) = []
    · rw [hnil]; rfl
    · apply (List.map_congr_left ?_).trans (List.map_id _)
      intro e he
      have hsrc := (List.mem_filter.mp he).2
      simp only [Bool.and_eq_true, Bool.or_eq_true, beq_iff_eq] at hsrc
      have hnc : ¬(e.source = "apple_calendar" ∧ false = false) := by
        intro hc
        rcases hsrc.1 with hs | hs <;> rw [hc.1] at hs <;> exact absurd hs (by decide)
      unfold maskPage
      rw [if_neg hnc]
      exact (id_eq e).symm
  unfold getOverlappingEventIds
  rw [if_neg (by simp), if_neg (by simp)]
  rw [hpersonal, hwork, List.foldl_map]
  congr 1
  funext acc p
  unfold overlapStepP
  rw [overlapStepW_maskPage]

def c6aP : PageEvent :=
  { id := "p3".toList
    subject := "Lunch"
    startMs := 0
    endMs := 100
    location := "Cafe"
    source := "apple_calendar"
    is_all_day := 0 }

/-- Witness for the amended C6 at a concrete event list with no
Free-placeholder personal event. -/
theorem c6_masking_independence_witness :
    getOverlappingEventIds true ([c6aP, c6W].map (maskPage false)) [] [] =
      getOverlappingEventIds true [c6aP, c6W] [] [] :=
  c6_masking_independence_amended [c6aP, c6W] [] [] (by decide)


/-- Per-feed sync outcome record (`SyncResult` in `route.ts` lines 154-159). -/
structure SyncResult where
  source : SyncSource
  added : Nat
  updated : Nat
  errors : List String
deriving DecidableEq, Repr

/-- External outcome of one feed, the boundary input to `syncIcsCalendar`: the
fetch/whole-document parse failed (the thrown error message), or the document
parsed into a list of per-event parse outcomes, together with the database
error (if any) that the upsert of this feed batch would report. -/
inductive FeedOutcome where
  | fetchError (msg : String)
  | parseError (msg : String)
  | parsed (items : List (Except String EventDef)) (dbError : Option String)

/-- One step of the `Map`-based dedup of `syncIcsCalendar` (`route.ts` lines
271-277): setting a key that exists overwrites the value in place (last writer
wins), otherwise appends. -/
def dedupInsert (acc : List Appointment) (e : Appointment) : List Appointment :=
  if acc.any (fun x => x.id == e.id) then
    acc.map (fun x => if x.id == e.id then e else x)
  else acc ++ [e]

/-- The full dedup pass: fold the batch through the keyed map, skipping
records with a falsy (empty) id, as the `if (event.id)` guard does. -/
def dedupById (l : List Appointment) : List Appointment :=
  l.foldl (fun acc e => if e.id = [] then acc else dedupInsert acc e) []

/-- Embedding of `syncIcsCalendar` from `route.ts` (lines 214-296): every
failure is captured inside the returned `SyncResult` — a fetch or whole-feed
parse failure becomes the single error of the result, per-event parse failures
become `Failed to parse event:` entries while the remaining events are
expanded, the deduplicated batch is upserted and a database failure becomes a
`Database error:` entry; the function never throws. -/
def syncIcsCalendar (src : SyncSource) (o : FeedOutcome) (rs re now : Int) :
    SyncResult :=
  match o with
  | .fetchError m => { source := src, added := 0, updated := 0, errors := [m] }
  | .parseError m => { source := src, added := 0, updated := 0, errors := [m] }
  | .parsed items dbError =>
    let parseErrors := items.filterMap (fun it =>
      match it with
      | .error m => some ("Failed to parse event: " ++ m)
      | .ok _ => none)
    let eventsToUpsert := (items.filterMap (fun it =>
      match it with
      | .ok e => some e
      | .error _ => none)).flatMap (fun e => expandEvent e rs re src now)
    if eventsToUpsert.isEmpty then
      { source := src, added := 0, updated := 0, errors := parseErrors }
    else
      match dbError with
      | some m =>
        { source := src, added := 0, updated := 0,
          errors := parseErrors ++ ["Database error: " ++ m] }
      | none =>
        { source := src, added := (dedupById eventsToUpsert).length, updated := 0,
          errors := parseErrors }

/-- Overall response of the POST sync route. -/
structure SyncResponse where
  success : Bool
  results : List SyncResult
  errors : List String
deriving DecidableEq, Repr

/-- Embedding of the POST handler of `route.ts` (lines 161-212) for a list of
configured feeds: run `syncIcsCalendar` per feed and always answer
`success: true` with the per-feed results and the concatenation of their error
lists; the `success: false` branch is reachable only through an exception
escaping the handler body (e.g. the metadata upsert), never through feed
failures, since `syncIcsCalendar` never throws. -/
def postSync (feeds : List (SyncSource × FeedOutcome)) (rs re now : Int) :
    SyncResponse :=
  let results := feeds.map (fun f => syncIcsCalendar f.1 f.2 rs re now)
  { success := true
    results := results
    errors := results.flatMap (fun r => r.errors) }

/-- Counterexample to C9 as stated: with two configured feeds that BOTH fail,
the orchestrator still reports overall success (with both errors itemized),
not failure. -/
theorem c9_orchestrator_counterexample :
    (postSync [(SyncSource.ics, FeedOutcome.fetchError "boom"),
      (SyncSource.apple_calendar, FeedOutcome.fetchError "bad")] 0 100 0).success
        = true ∧
    (∀ r ∈ (postSync [(SyncSource.ics, FeedOutcome.fetchError "boom"),
      (SyncSource.apple_calendar, FeedOutcome.fetchError "bad")] 0 100 0).results,
        r.errors ≠ []) ∧
    (postSync [(SyncSource.ics, FeedOutcome.fetchError "boom"),
      (SyncSource.apple_calendar, FeedOutcome.fetchError "bad")] 0 100 0).errors
        = ["boom", "bad"] := by
  refine ⟨rfl, ?_, rfl⟩
  intro r hr
  simp only [postSync, syncIcsCalendar, List.map_cons, List.map_nil,
    List.mem_cons, List.not_mem_nil, or_false] at hr
  rcases hr with rfl | rfl <;> simp

/-- C9 amended: whenever the orchestrator body completes, the result reports
success with one `SyncResult` per configured feed and every per-feed error
itemized in the response error list, regardless of how many feeds failed;
overall failure can only come from an exception escaping the handler itself,
never from feed failures (`syncIcsCalendar` is total and never throws). -/
theorem c9_orchestrator_amended (feeds : List (SyncSource × FeedOutcome))
    (rs re now : Int) :
    (postSync feeds rs re now).success = true ∧
    (postSync feeds rs re now).results.length = feeds.length ∧
    ∀ r ∈ (postSync feeds rs re now).results, ∀ m ∈ r.errors,
      m ∈ (postSync feeds rs re now).errors := by
  refine ⟨rfl, by simp [postSync], ?_⟩
  intro r hr m hm
  simp only [postSync] at hr ⊢
  exact List.mem_flatMap.mpr ⟨r, hr, hm⟩

/-- Witness for the amended C9 at a concrete all-failing configuration. -/
theorem c9_orchestrator_witness :
    (postSync [(SyncSource.ics, FeedOutcome.fetchError "x")] 0 100 0).success = true :=
  (c9_orchestrator_amended [(SyncSource.ics, FeedOutcome.fetchError "x")] 0 100 0).1


/-- Input to the column layout: one event of a day with its (uncut) fractional
start/end hours on the 24-hour axis, as computed by the slot-building `map` of
`calculateEventLayout` (`page.tsx` lines 728-740) before clamping; extracting
the hours from `Date` values in the display timezone is the boundary. -/
structure RawSlot where
  id : String
  startHour : Rat
  endHour : Rat
deriving DecidableEq, Repr

/-- A slot in the layout algorithm: id, clamped hour range and assigned
column. -/
structure Slot where
  sid : String
  startHour : Rat
  endHour : Rat
  column : Nat
deriving DecidableEq, Repr

/-- The clamp `Math.max(0, Math.min(24, h))` of the slot-building map. -/
def clampHour (h : Rat) : Rat := max 0 (min 24 h)

/-- Build the working slots (column initialised to 0). -/
def mkSlots (l : List RawSlot) : List Slot :=
  l.map (fun r =>
    { sid := r.id, startHour := clampHour r.startHour,
      endHour := clampHour r.endHour, column := 0 })

/-- Sort comparator of `page.tsx` lines 743-746: start ascending, ties broken
by end descending (longer events first). -/
def slotBefore (a b : Slot) : Prop :=
  a.startHour < b.startHour ∨ (a.startHour = b.startHour ∧ b.endHour ≤ a.endHour)

instance : DecidableRel slotBefore := fun a b => by
  unfold slotBefore
  infer_instance

/-- Strict hour-range intersection test used throughout the grouping loop
(`slot.startHour < g.endHour && slot.endHour > g.startHour`). -/
def hoursOverlap (s g : Slot) : Bool :=
  decide (s.startHour < g.endHour) && decide (s.endHour > g.startHour)

/-- The inner `columnTaken` check (`page.tsx` lines 762-766). -/
def columnTaken (group : List Slot) (s : Slot) (col : Nat) : Bool :=
  group.any (fun g => g.column == col && hoursOverlap s g)

/-- The `while (true) col++` search for the first free column, fuelled by
`group.length + 1`, which always suffices because a group of `n` slots can
occupy at most `n` distinct columns. -/
def findFreeCol (group : List Slot) (s : Slot) : Nat → Nat → Nat
  | 0, col => col
  | Nat.succ fuel, col =>
    if columnTaken group s col then findFreeCol group s fuel (col + 1) else col

/-- Does the slot time-overlap at least one member of the group
(`group.some(...)` at `page.tsx` lines 755-757)? -/
def groupOverlaps (group : List Slot) (s : Slot) : Bool :=
  group.any (fun g => hoursOverlap s g)

/-- Find the first group the slot overlaps and add it there at the first free
column; `none` when no group intersects (`page.tsx` lines 751-780). -/
def insertIntoGroups (s : Slot) : List (List Slot) → Option (List (List Slot))
  | [] => none
  | g :: gs =>
    if groupOverlaps g s then
      some ((g ++ [{ s with column := findFreeCol g s (g.length + 1) 0 }]) :: gs)
    else
      match insertIntoGroups s gs with
      | some gs2 => some (g :: gs2)
      | none => none

/-- The grouping loop over the sorted slots. -/
def assignLoop : List Slot → List (List Slot) → List (List Slot)
  | [], groups => groups
  | s :: rest, groups =>
    match insertIntoGroups s groups with
    | some groups2 => assignLoop rest groups2
    | none => assignLoop rest (groups ++ [[{ s with column := 0 }]])

/-- `Math.max(...group.map(s => s.column))` over a (non-empty) group. -/
def maxColumn (g : List Slot) : Nat := g.foldl (fun m s => max m s.column) 0

/-- Geometry record written per slot (`page.tsx` lines 791-805): percentages
of the 24-hour axis, a 2 percent height floor, equal-width columns. -/
structure LayoutInfo where
  column : Nat
  totalColumns : Nat
  top : Rat
  height : Rat
  left : Rat
  width : Rat
deriving DecidableEq, Repr

/-- Embedding of `calculateEventLayout` (`page.tsx` lines 722-807): clamp,
sort, group greedily, then write each group member its group column total and
geometry. The JavaScript `Map` keyed by event id is modelled as the
association list of `(id, layout)` pairs in group order. -/
def calculateEventLayout (raw : List RawSlot) : List (String × LayoutInfo) :=
  let slots := List.insertionSort slotBefore (mkSlots raw)
  let groups := assignLoop slots []
  groups.flatMap (fun g =>
    let total := maxColumn g + 1
    g.map (fun s =>
      (s.sid,
        { column := s.column
          totalColumns := total
          top := s.startHour / 24 * 100
          height := max ((s.endHour - s.startHour) / 24 * 100) 2
          left := (s.column : Rat) * (100 / (total : Rat))
          width := 100 / (total : Rat) })))

theorem assignLoop_three (x y z : Slot)
    (hxy : x.startHour < y.endHour ∧ y.startHour < x.endHour)
    (hxz : x.startHour < z.endHour ∧ z.startHour < x.endHour)
    (hyz : y.startHour < z.endHour ∧ z.startHour < y.endHour) :
    assignLoop [x, y, z] [] =
      [[{ x with column := 0 }, { y with column := 1 }, { z with column := 2 }]] := by
  have o_yx : hoursOverlap y { x with column := 0 } = true := by
    simp only [hoursOverlap, Bool.and_eq_true, decide_eq_true_eq]
    exact ⟨hxy.2, hxy.1⟩
  have o_zx : hoursOverlap z { x with column := 0 } = true := by
    simp only [hoursOverlap, Bool.and_eq_true, decide_eq_true_eq]
    exact ⟨hxz.2, hxz.1⟩
  have o_zy : hoursOverlap z { y with column := 1 } = true := by
    simp only [hoursOverlap, Bool.and_eq_true, decide_eq_true_eq]
    exact ⟨hyz.2, hyz.1⟩
  simp [assignLoop, insertIntoGroups, groupOverlaps, findFreeCol, columnTaken,
    o_yx, o_zx, o_zy]

theorem assignLoop_two_disjoint (x y : Slot)
    (h : hoursOverlap y { x with column := 0 } = false) :
    assignLoop [x, y] [] =
      [[{ x with column := 0 }], [{ y with column := 0 }]] := by
  simp [assignLoop, insertIntoGroups, groupOverlaps, h]


/-- The hour range of a raw slot lies on the 24-hour axis (clamping is then
the identity). -/
def hourInRange (r : RawSlot) : Prop :=
  0 ≤ r.startHour ∧ r.startHour ≤ 24 ∧ 0 ≤ r.endHour ∧ r.endHour ≤ 24

/-- Strict intersection of two raw hour ranges. -/
def rawOverlap (a b : RawSlot) : Prop :=
  a.startHour < b.endHour ∧ b.startHour < a.endHour

/-- The working slot of an in-range raw slot (clamps removed). -/
def toSlot (r : RawSlot) : Slot :=
  { sid := r.id, startHour := r.startHour, endHour := r.endHour, column := 0 }

theorem clampHour_eq (q : Rat) (h0 : 0 ≤ q) (h24 : q ≤ 24) : clampHour q = q := by
  unfold clampHour
  rw [min_eq_right h24, max_eq_right h0]

theorem mkSlots_eq (l : List RawSlot) (h : ∀ r ∈ l, hourInRange r) :
    mkSlots l = l.map toSlot := by
  unfold mkSlots
  apply List.map_congr_left
  intro r hr
  obtain ⟨h1, h2, h3, h4⟩ := h r hr
  simp [toSlot, clampHour_eq _ h1 h2, clampHour_eq _ h3 h4]

/-- C8: in the column layout, three same-day events whose (in-range, proper)
hour ranges pairwise intersect receive the column indices 0, 1, 2 with
totalColumns 3 written to each of them, and two events with disjoint hour
ranges each receive column 0 with totalColumns 1. -/
theorem c8_layout_column_count :
    (∀ a b c : RawSlot, hourInRange a → hourInRange b → hourInRange c →
      a.startHour < a.endHour → b.startHour < b.endHour → c.startHour < c.endHour →
      rawOverlap a b → rawOverlap a c → rawOverlap b c →
      (calculateEventLayout [a, b, c]).map (fun p => p.2.column) = [0, 1, 2] ∧
      (calculateEventLayout [a, b, c]).map (fun p => p.2.totalColumns) = [3, 3, 3] ∧
      ((calculateEventLayout [a, b, c]).map Prod.fst).Perm [a.id, b.id, c.id]) ∧
    (∀ a b : RawSlot, hourInRange a → hourInRange b →
      a.startHour < a.endHour → b.startHour < b.endHour →
      (a.endHour ≤ b.startHour ∨ b.endHour ≤ a.startHour) →
      (calculateEventLayout [a, b]).map (fun p => p.2.column) = [0, 0] ∧
      (calculateEventLayout [a, b]).map (fun p => p.2.totalColumns) = [1, 1] ∧
      ((calculateEventLayout [a, b]).map Prod.fst).Perm [a.id, b.id]) := by
  constructor
  · intro a b c ha hb hc pa pb pc hab hac hbc
    have hmk : mkSlots [a, b, c] = [toSlot a, toSlot b, toSlot c] := by
      rw [mkSlots_eq]
      · rfl
      · intro r hr
        simp only [List.mem_cons, List.not_mem_nil, or_false] at hr
        rcases hr with rfl | rfl | rfl <;> assumption
    have hperm : (List.insertionSort slotBefore [toSlot a, toSlot b, toSlot c]).Perm
        [toSlot a, toSlot b, toSlot c] := List.perm_insertionSort _ _
    have hall : ∀ u ∈ [toSlot a, toSlot b, toSlot c],
        ∀ v ∈ [toSlot a, toSlot b, toSlot c],
        u.startHour < v.endHour ∧ v.startHour < u.endHour := by
      have h1 := hab.1
      have h2 := hab.2
      have h3 := hac.1
      have h4 := hac.2
      have h5 := hbc.1
      have h6 := hbc.2
      intro u hu v hv
      simp only [List.mem_cons, List.not_mem_nil, or_false] at hu hv
      rcases hu with rfl | rfl | rfl <;> rcases hv with rfl | rfl | rfl <;>
        simp only [toSlot] <;> exact ⟨by assumption, by assumption⟩
    have hlen := hperm.length_eq
    rcases hsplit : List.insertionSort slotBefore [toSlot a, toSlot b, toSlot c] with
      _ | ⟨x, _ | ⟨y, _ | ⟨z, _ | ⟨w, rest⟩⟩⟩⟩
    · rw [hsplit] at hlen; simp at hlen
    · rw [hsplit] at hlen; simp at hlen
    · rw [hsplit] at hlen; simp at hlen
    · have hperm2 : ([x, y, z] : List Slot).Perm [toSlot a, toSlot b, toSlot c] :=
        hsplit ▸ hperm
      have hx : x ∈ [toSlot a, toSlot b, toSlot c] := hperm2.mem_iff.mp (by simp)
      have hy : y ∈ [toSlot a, toSlot b, toSlot c] := hperm2.mem_iff.mp (by simp)
      have hz : z ∈ [toSlot a, toSlot b, toSlot c] := hperm2.mem_iff.mp (by simp)
      have hassign := assignLoop_three x y z (hall x hx y hy) (hall x hx z hz)
        (hall y hy z hz)
      have hids : ([x, y, z].map Slot.sid).Perm
          ([toSlot a, toSlot b, toSlot c].map Slot.sid) := hperm2.map _
      simp only [toSlot, List.map_cons, List.map_nil] at hids
      simp only [calculateEventLayout]
      rw [hmk, hsplit, hassign]
      refine ⟨?_, ?_, ?_⟩
      · simp [maxColumn]
      · simp [maxColumn]
      · simpa [maxColumn] using hids
    · rw [hsplit] at hlen; simp at hlen
  · intro a b ha hb pa pb hdisj
    have hmk : mkSlots [a, b] = [toSlot a, toSlot b] := by
      rw [mkSlots_eq]
      · rfl
      · intro r hr
        simp only [List.mem_cons, List.not_mem_nil, or_false] at hr
        rcases hr with rfl | rfl <;> assumption
    have hno1 : hoursOverlap (toSlot b) { toSlot a with column := 0 } = false := by
      rcases hdisj with hd | hd
      · have hlt : ¬ (b.startHour < a.endHour) := not_lt.mpr hd
        simp [hoursOverlap, toSlot, hlt]
      · have hlt : ¬ (b.endHour > a.startHour) := not_lt.mpr hd
        simp [hoursOverlap, toSlot, hlt]
    have hno2 : hoursOverlap (toSlot a) { toSlot b with column := 0 } = false := by
      rcases hdisj with hd | hd
      · have hlt : ¬ (a.endHour > b.startHour) := not_lt.mpr hd
        simp [hoursOverlap, toSlot, hlt]
      · have hlt : ¬ (a.startHour < b.endHour) := not_lt.mpr hd
        simp [hoursOverlap, toSlot, hlt]
    have hsort : List.insertionSort slotBefore [toSlot a, toSlot b] =
        if slotBefore (toSlot a) (toSlot b) then [toSlot a, toSlot b]
        else [toSlot b, toSlot a] := by
      simp [List.insertionSort, List.orderedInsert]
    by_cases hr : slotBefore (toSlot a) (toSlot b)
    · rw [if_pos hr] at hsort
      simp only [calculateEventLayout]
      rw [hmk, hsort, assignLoop_two_disjoint _ _ hno1]
      refine ⟨?_, ?_, ?_⟩
      · simp [maxColumn]
      · simp [maxColumn]
      · simp [maxColumn, toSlot]
    · rw [if_neg hr] at hsort
      simp only [calculateEventLayout]
      rw [hmk, hsort, assignLoop_two_disjoint _ _ hno2]
      refine ⟨?_, ?_, ?_⟩
      · simp [maxColumn]
      · simp [maxColumn]
      · simp only [maxColumn, toSlot, List.flatMap_cons, List.flatMap_nil,
          List.map_cons, List.map_nil, List.map_append, List.append_nil]
        exact List.Perm.swap _ _ _

def c8a : RawSlot := { id := "A", startHour := 0, endHour := 3 }

def c8b : RawSlot := { id := "B", startHour := 1, endHour := 4 }

def c8c : RawSlot := { id := "C", startHour := 2, endHour := 5 }

def c8d : RawSlot := { id := "D", startHour := 10, endHour := 11 }

/-- Witness for C8 at concrete three mutually overlapping events and two
disjoint events. -/
theorem c8_layout_column_count_witness :
    ((calculateEventLayout [c8a, c8b, c8c]).map (fun p => p.2.column) = [0, 1, 2] ∧
      (calculateEventLayout [c8a, c8b, c8c]).map (fun p => p.2.totalColumns) =
        [3, 3, 3] ∧
      ((calculateEventLayout [c8a, c8b, c8c]).map Prod.fst).Perm
        [c8a.id, c8b.id, c8c.id]) ∧
    ((calculateEventLayout [c8a, c8d]).map (fun p => p.2.column) = [0, 0] ∧
      (calculateEventLayout [c8a, c8d]).map (fun p => p.2.totalColumns) = [1, 1] ∧
      ((calculateEventLayout [c8a, c8d]).map Prod.fst).Perm [c8a.id, c8d.id]) :=
  ⟨c8_layout_column_count.1 c8a c8b c8c (by unfold hourInRange; decide)
      (by unfold hourInRange; decide) (by unfold hourInRange; decide)
      (by decide) (by decide) (by decide) (by unfold rawOverlap; decide)
      (by unfold rawOverlap; decide) (by unfold rawOverlap; decide),
    c8_layout_column_count.2 c8a c8d (by unfold hourInRange; decide)
      (by unfold hourInRange; decide) (by decide) (by decide) (by decide)⟩


end LifeSynced
